import Mathlib

/-!
Verification of the AI-Visibility scoring core (backend/services/scorer.py,
ranker.py, embedder.py, core/config.py, schemas/product.py).

Numbers are modelled over the rationals; the sentence-transformer embedding
model and the textstat Flesch metric are external black boxes and appear as
parameters (an abstract encode/cosine pair, and a fallible metric returning
Option).  All other code is translated directly from the Python source.
-/

namespace AIVis

/-! String primitives modelling the Python operations used by the scorer:
lowercasing, substring containment (the Python in operator), whitespace
word-splitting (str.split with no arguments). -/

/-- Computable Python min on rationals (kernel-reducible, unlike the
lattice operations). -/
def qmin (a b : ℚ) : ℚ := if a ≤ b then a else b

/-- Computable Python max on rationals. -/
def qmax (a b : ℚ) : ℚ := if a ≤ b then b else a

def lowerStr (s : String) : String := String.mk (s.data.map Char.toLower)

def hasPrefixL : List Char → List Char → Bool
  | [], _ => true
  | _ :: _, [] => false
  | a :: as, b :: bs => a == b && hasPrefixL as bs

def hasSubL (needle : List Char) : List Char → Bool
  | [] => needle.isEmpty
  | b :: bs => hasPrefixL needle (b :: bs) || hasSubL needle bs

/-- Python: needle in hay (substring containment). -/
def occursIn (needle hay : String) : Bool := hasSubL needle.data hay.data

/-- Helper for Python str.split() with no separator: accumulate the current
word (reversed) and emit it at each whitespace run. -/
def wordsAux : List Char → List Char → List String
  | [], acc => if acc.isEmpty then [] else [String.mk acc.reverse]
  | c :: cs, acc =>
    if c.isWhitespace then
      (if acc.isEmpty then wordsAux cs [] else String.mk acc.reverse :: wordsAux cs [])
    else wordsAux cs (c :: acc)

def pyWords (s : String) : List String := wordsAux s.data []

def joinSpace (ws : List String) : String := String.intercalate " " ws

/-- scorer.py lines 61-62: chunks of 200 words, each joined by spaces.
Fueled recursion (fuel = list length is always enough since each step
drops at least one word). -/
def chunkWordsAux : Nat → List String → List String
  | 0, _ => []
  | _, [] => []
  | fuel + 1, w :: ws =>
    joinSpace (List.take 200 (w :: ws)) :: chunkWordsAux fuel (List.drop 200 (w :: ws))

def chunkWords (l : List String) : List String := chunkWordsAux l.length l

/-! Data model (schemas/product.py). -/

structure Product where
  title : String
  description : String
  category : String
  brand : String
  platform : Option String := none
  url : Option String := none
  market_rank : Option Int := none
  image_url : Option String := none
  price : Option ℚ := none
  deriving DecidableEq

structure ScoreBreakdown where
  semantic_relevance : ℚ
  keyword_coverage : ℚ
  completeness : ℚ
  readability : ℚ
  deriving DecidableEq

structure WeaknessAnalysis where
  missing_specs : List String
  missing_keywords : List String
  clarity_issues : List String
  suggestions : List String
  deriving DecidableEq

structure SentimentResult where
  pros : List String
  cons : List String
  deriving DecidableEq

structure RankedProduct where
  product : Product
  score : ℚ
  rank : Nat
  market_rank : Option Int
  platform : Option String
  url : Option String
  sentiment : Option SentimentResult
  deriving DecidableEq

/-- Pydantic validity constraints on ProductInput (title, category, brand
min_length 1; description min_length 10). -/
def validProduct (p : Product) : Prop :=
  p.title ≠ "" ∧ 10 ≤ p.description.length ∧ p.category ≠ "" ∧ p.brand ≠ ""

instance (p : Product) : Decidable (validProduct p) := by
  unfold validProduct; infer_instance

/-! Configuration (core/config.py). -/

def WEIGHT_SEMANTIC : ℚ := 4 / 10
def WEIGHT_KEYWORD : ℚ := 2 / 10
def WEIGHT_COMPLETENESS : ℚ := 2 / 10
def WEIGHT_READABILITY : ℚ := 2 / 10

def MIN_DESCRIPTION_LENGTH : Nat := 50

def COMPLETENESS_KEYWORDS : List String :=
  ["specifications", "specs", "features", "dimensions", "weight",
   "material", "color", "size", "warranty", "compatibility",
   "battery", "power", "capacity", "performance", "quality",
   "use case", "application", "suitable for", "ideal for",
   "technical", "highlights", "overview", "included", "package",
   "design", "technology", "engineered", "certified"]

/-! Embedder (services/embedder.py).  The sentence-transformer model and the
cosine kernel are black boxes: an abstract encode function into rational
vectors and an abstract similarity kernel on them. -/

structure EmbeddingService where
  encode : String → List ℚ
  cos : List ℚ → List ℚ → ℚ

/-- embedder.py lines 31-44: encode the query, encode every document, return
the row of similarities of the query against each document, in order.  This
is the similarity row the code produces when the library calls succeed. -/
def compute_similarity_batch (svc : EmbeddingService) (query : String)
    (documents : List String) : List ℚ :=
  let query_embedding := svc.encode query
  let doc_embeddings := documents.map svc.encode
  doc_embeddings.map (fun d => svc.cos query_embedding d)

/-- embedder.py lines 31-44 with the external validation made explicit: the
code batch-encodes the whole document list and hands the resulting matrix
to sklearn cosine_similarity, whose input validation (check_array) raises
ValueError when the document array has zero samples, i.e. exactly when
documents is empty.  none models that raise; on a non-empty list the call
succeeds and yields the similarity row. -/
def compute_similarity_batchChecked (svc : EmbeddingService) (query : String)
    (documents : List String) : Option (List ℚ) :=
  if documents.isEmpty then none
  else some (compute_similarity_batch svc query documents)

/-! Scoring service (services/scorer.py). -/

/-- scorer.py lines 14-44 with the template slots filled
(use_case = daily use, feature = best features). -/
def generate_ai_queries (p : Product) : List String :=
  ["Best " ++ p.category ++ " for daily use",
   "Top rated " ++ p.category,
   "Affordable " ++ p.category,
   p.category ++ " with best features",
   "High quality " ++ p.category,
   "Professional " ++ p.category,
   p.brand ++ " " ++ p.category ++ " review",
   p.category,
   p.brand ++ " " ++ p.category,
   "best " ++ p.category,
   "top " ++ p.category ++ " brands"]

def mean (l : List ℚ) : ℚ := l.sum / (l.length : ℚ)

def listMax : List ℚ → ℚ
  | [] => 0
  | x :: xs => xs.foldl qmax x

/-- scorer.py lines 46-86. -/
def calculate_semantic_relevance (svc : EmbeddingService) (p : Product)
    (queries : List String) : ℚ :=
  let product_text := p.title ++ ". " ++ p.description
  let chunks := chunkWords (pyWords product_text)
  if chunks.isEmpty then 0
  else
    let all_chunk_similarities :=
      chunks.map (fun c => mean (compute_similarity_batch svc c queries))
    let max_similarity := listMax all_chunk_similarities
    let avg_similarity := mean all_chunk_similarities
    let top_similarity := max_similarity * (8 / 10) + avg_similarity * (2 / 10)
    let score := top_similarity / (6 / 10) * 100 +
      (if occursIn (lowerStr p.brand) (lowerStr p.title) then 10 else 0)
    qmin 100 (qmax 0 score)

/-- Fallible version of the same computation: the only failure point in the
Python body is the division by len(similarities) when the query list is
empty (a ZeroDivisionError); the empty-chunk case returns before it. -/
def calculate_semantic_relevanceChecked (svc : EmbeddingService) (p : Product)
    (queries : List String) : Option ℚ :=
  let product_text := p.title ++ ". " ++ p.description
  let chunks := chunkWords (pyWords product_text)
  if chunks.isEmpty then some 0
  else if queries.isEmpty then none
  else some (calculate_semantic_relevance svc p queries)

/-- scorer.py lines 101-107. -/
def importantKeywords (p : Product) : List String :=
  [lowerStr p.category, lowerStr p.brand,
   "quality", "premium", "best", "top",
   "features", "specifications", "performance",
   "technology", "design", "professional", "benefits"]

/-- scorer.py lines 88-113. -/
def calculate_keyword_coverage (p : Product) : ℚ :=
  let description_lower := lowerStr p.description
  let found_keywords :=
    ((importantKeywords p).filter (fun kw => occursIn kw description_lower)).length
  let coverage :=
    ((found_keywords : ℚ) / ((importantKeywords p).length : ℚ)) * 100
  qmin 100 (qmax 0 coverage)

/-- scorer.py lines 122-129. -/
def completenessConcepts : List (String × List String) :=
  [("battery", ["battery", "mah", "runtime", "hours", "charging", "powered by",
                "h playback", "playtime"]),
   ("dimensions", ["mm", "cm", "inch", "x", "folded", "compact", "size", "dimensions"]),
   ("material", ["leather", "carbon fiber", "plastic", "metal", "aluminum", "steel",
                 "fabric", "silicone", "premium"]),
   ("warranty", ["warranty", "guarantee", "year", "month", "protection"]),
   ("connectivity", ["bluetooth", "wireless", "nfc", "ldac", "wifi", "cable", "jack",
                     "aux", "5.0", "5.3"]),
   ("performance", ["fast", "speed", "processor", "optimized", "high fidelity",
                    "noise cancel", "hz", "khz", "anc"])]

/-- scorer.py line 151: structure markers in the raw description. -/
def hasMarker (s : String) : Bool :=
  occursIn "•" s || occursIn "-" s || occursIn ":" s

/-- scorer.py lines 115-148: the combined completeness score before the
structured-data bonus and clamping. -/
def completenessBase (p : Product) : ℚ :=
  let text_to_check := lowerStr (p.title ++ " " ++ p.description)
  let found_concepts :=
    (completenessConcepts.filter
      (fun c => c.2.any (fun trigger => occursIn trigger text_to_check))).length
  let target_len : ℚ := 2000
  let length_score := qmin 100 (((p.description.length : ℚ) / target_len) * 100)
  let concept_score :=
    ((found_concepts : ℚ) / (completenessConcepts.length : ℚ)) * 100
  let keyword_overlap :=
    (COMPLETENESS_KEYWORDS.filter (fun kw => occursIn kw text_to_check)).length
  let keyword_score :=
    ((keyword_overlap : ℚ) / (COMPLETENESS_KEYWORDS.length : ℚ)) * 100
  concept_score * (7 / 10) + keyword_score * (1 / 10) + length_score * (2 / 10)

/-- scorer.py lines 115-154. -/
def calculate_completeness (p : Product) : ℚ :=
  let score := completenessBase p +
    (if hasMarker p.description then 15 else 0)
  qmin 100 (qmax 0 score)

/-- scorer.py lines 156-181.  flesch is the external textstat metric; none
models the raw metric raising on degenerate text, which the broad except
turns into the neutral 50. -/
def calculate_readability (flesch : String → Option ℚ) (p : Product) : ℚ :=
  let description := p.description
  let normalized_score : ℚ :=
    match flesch description with
    | none => 50
    | some flesch_score =>
      (if flesch_score < 0 then 10
       else if flesch_score < 30 then 40 + (flesch_score / 30) * 10
       else 50 + ((flesch_score - 30) / 70) * 50) +
      (if hasMarker description then 10 else 0)
  qmin 100 (qmax 0 normalized_score)

/-- scorer.py lines 192-200. -/
def featureMapping : List (String × List String) :=
  [("wireless", ["wireless", "cordless", "wifi", "radio frequency"]),
   ("bluetooth", ["bluetooth", "bt 5", "5.0", "5.1", "5.2", "5.3", "ldac"]),
   ("noise cancel", ["noise cancel", "anc", "digital noise", "isolation", "qn1", "qn3"]),
   ("fast charge", ["fast charge", "quick charge", "pd charge", "3 min", "5 min"]),
   ("battery life", ["hours", "h playback", "runtime", "playtime", "battery"]),
   ("material", ["leather", "carbon fiber", "metal", "aluminum", "fabric"]),
   ("design", ["folded", "swivel", "foldable", "compact", "carrying case"])]

/-- scorer.py lines 183-206. -/
def extract_features (title description : String) : List String :=
  let text := lowerStr (title ++ " " ++ description)
  (featureMapping.filter
    (fun m => m.2.any (fun trigger => occursIn trigger text))).map (fun m => m.1)

/-- scorer.py lines 227-233. -/
def weaknessConcepts : List (String × List String) :=
  [("specifications/battery", ["battery", "mah", "runtime", "hours", "charging", "powered by"]),
   ("dimensions/size", ["mm", "cm", "inch", "folded", "compact", "size"]),
   ("weight", ["weight", "grams", " kg", "lbs", "lightweight"]),
   ("material", ["leather", "carbon fiber", "plastic", "metal", "aluminum", "steel",
                 "fabric", "silicone"]),
   ("warranty", ["warranty", "guarantee", "protection"])]

/-- Python concept.split("/")[0]: the prefix before the first slash. -/
def headBeforeSlash (s : String) : String :=
  String.mk (s.data.takeWhile (fun c => c ≠ '/'))

/-- scorer.py lines 208-267. -/
def analyze_weaknesses (p : Product) (score_breakdown : ScoreBreakdown) :
    WeaknessAnalysis :=
  let description_lower := lowerStr p.description
  let missing_specs :=
    (weaknessConcepts.filter
      (fun c => !(c.2.any (fun trigger => occursIn trigger description_lower)))).map
      (fun c => headBeforeSlash c.1)
  let missing_keywords :=
    (["quality", "features", "benefits", "use case"].filter
      (fun kw => !(occursIn kw description_lower)))
  let clarity_issues :=
    if p.description.length < MIN_DESCRIPTION_LENGTH
    then ["Description too short"] else []
  let suggestions :=
    (if p.description.length < MIN_DESCRIPTION_LENGTH
     then ["Expand description with more details"] else []) ++
    (if score_breakdown.semantic_relevance < 50
     then ["Add more context about product use cases and benefits"] else []) ++
    (if score_breakdown.keyword_coverage < 50
     then ["Include more keywords related to " ++ p.category] else []) ++
    (if score_breakdown.completeness < 50
     then ["Add specifications and technical details"] else []) ++
    (if score_breakdown.readability < 50
     then ["Simplify language for better readability"] else [])
  ⟨missing_specs, missing_keywords, clarity_issues, suggestions⟩

/-- Python round-half-to-even on an exact rational. -/
def pyRound (x : ℚ) : ℤ :=
  if x - (⌊x⌋ : ℚ) < 1 / 2 then ⌊x⌋
  else if 1 / 2 < x - (⌊x⌋ : ℚ) then ⌊x⌋ + 1
  else if ⌊x⌋ % 2 = 0 then ⌊x⌋ else ⌊x⌋ + 1

/-- Python round(x, 2). -/
def round2 (x : ℚ) : ℚ := ((pyRound (x * 100) : ℚ)) / 100

/-- scorer.py lines 269-286. -/
def calculate_final_score (score_breakdown : ScoreBreakdown) : ℚ :=
  round2
    (score_breakdown.semantic_relevance * WEIGHT_SEMANTIC +
     score_breakdown.keyword_coverage * WEIGHT_KEYWORD +
     score_breakdown.completeness * WEIGHT_COMPLETENESS +
     score_breakdown.readability * WEIGHT_READABILITY)

/-- scorer.py lines 288-318. -/
def score_product (svc : EmbeddingService) (flesch : String → Option ℚ)
    (p : Product) : ℚ × ScoreBreakdown × List String :=
  let queries := generate_ai_queries p
  let semantic_score := calculate_semantic_relevance svc p queries
  let keyword_score := calculate_keyword_coverage p
  let completeness_score := calculate_completeness p
  let readability_score := calculate_readability flesch p
  let score_breakdown : ScoreBreakdown :=
    ⟨semantic_score, keyword_score, completeness_score, readability_score⟩
  let final_score := calculate_final_score score_breakdown
  (final_score, score_breakdown, queries)

/-! Ranking service (services/ranker.py).  The sentiment service calls an
external LLM; it appears as a parameter. -/

def finalScoreOf (svc : EmbeddingService) (flesch : String → Option ℚ)
    (p : Product) : ℚ :=
  (score_product svc flesch p).1

/-- One insertion step of the stable descending sort: the new element goes
in front of the first entry whose score is at most its own, hence after
every strictly greater entry and before every equal one coming later. -/
def insertDesc (x : Product × ℚ) : List (Product × ℚ) → List (Product × ℚ)
  | [] => [x]
  | y :: ys => if y.2 ≤ x.2 then x :: y :: ys else y :: insertDesc x ys

/-- Python list.sort(key score, reverse) is the stable descending sort;
insertion sort with insertDesc realises exactly that order. -/
def sortDesc : List (Product × ℚ) → List (Product × ℚ)
  | [] => []
  | x :: xs => insertDesc x (sortDesc xs)

/-- ranker.py lines 40-48. -/
def mkRanked (sent : Product → Option SentimentResult) (pr : Product × ℚ)
    (rank : Nat) : RankedProduct :=
  ⟨pr.1, pr.2, rank, pr.1.market_rank, pr.1.platform, pr.1.url, sent pr.1⟩

/-- ranker.py line 35: enumerate(scored_products, start = n). -/
def withRanks (sent : Product → Option SentimentResult) :
    Nat → List (Product × ℚ) → List RankedProduct
  | _, [] => []
  | n, pr :: rest => mkRanked sent pr n :: withRanks sent (n + 1) rest

/-- ranker.py lines 11-50. -/
def rank_products (svc : EmbeddingService) (flesch : String → Option ℚ)
    (sent : Product → Option SentimentResult) (products : List Product) :
    List RankedProduct :=
  let scored_products := products.map (fun p => (p, finalScoreOf svc flesch p))
  withRanks sent 1 (sortDesc scored_products)

/-- ranker.py lines 52-76.  The Python next(...) on the generator yields the
first ranked entry whose product is structurally equal to the subject. -/
def rank_against_competitors (svc : EmbeddingService) (flesch : String → Option ℚ)
    (sent : Product → Option SentimentResult) (user_product : Product)
    (competitors : List Product) : Option RankedProduct × List RankedProduct :=
  let all_products := [user_product] ++ competitors
  let ranked := rank_products svc flesch sent all_products
  (ranked.find? (fun r => decide (r.product = user_product)), ranked)

/-- Removing every structure-marker character from a description (the
stripped comparison text used by the completeness-bonus claim). -/
def stripMarkers (s : String) : String :=
  String.mk (s.data.filter (fun c => !(c == '•' || c == '-' || c == ':')))

/-! Concrete inputs used by witnesses and counterexamples. -/

/-- A degenerate embedding service (constant similarity): the scorer treats
the model as a black box, so any instance is admissible for witnesses. -/
def wSvc : EmbeddingService := EmbeddingService.mk (fun _ => []) (fun _ _ => 0)

/-- The product of the example scenario in the spec. -/
def acmeProduct : Product :=
  { title := "Acme X1", description := "A decent gadget.",
    category := "Gadgets", brand := "Acme" }

def zeroBreakdown : ScoreBreakdown := ScoreBreakdown.mk 0 0 0 0

def midBreakdown : ScoreBreakdown := ScoreBreakdown.mk 50 50 50 50

/-- A valid product whose description contains a colon marker. -/
def colonProduct : Product :=
  { title := "T", description := "Spec: good", category := "Cat", brand := "B" }

/-- colonProduct with the marker characters removed from its description. -/
def strippedColonProduct : Product :=
  { colonProduct with description := stripMarkers colonProduct.description }

/-- A valid product whose description avoids every important keyword. -/
def gizmoProduct : Product :=
  { title := "Gizmo", description := "a simple gadget for home",
    category := "Gadgets", brand := "Acme" }

end AIVis

/-! ### Theorems -/

namespace AIVis

theorem qmin_eq_min (a b : ℚ) : qmin a b = min a b := by
  unfold qmin
  split
  · exact (min_eq_left (by assumption)).symm
  · exact (min_eq_right (le_of_not_le (by assumption))).symm

theorem qmax_eq_max (a b : ℚ) : qmax a b = max a b := by
  unfold qmax
  split
  · exact (max_eq_right (by assumption)).symm
  · exact (max_eq_left (le_of_not_le (by assumption))).symm

theorem clamp_nonneg (x : ℚ) : 0 ≤ qmin 100 (qmax 0 x) := by
  rw [qmin_eq_min, qmax_eq_max]
  exact le_min (by norm_num) (le_max_left 0 x)

theorem clamp_le_100 (x : ℚ) : qmin 100 (qmax 0 x) ≤ 100 := by
  rw [qmin_eq_min]
  exact min_le_left _ _

theorem floor_le_pyRound (x : ℚ) : ⌊x⌋ ≤ pyRound x := by
  unfold pyRound
  split_ifs <;> omega

theorem pyRound_le_ceil (x : ℚ) : pyRound x ≤ ⌈x⌉ := by
  unfold pyRound
  split_ifs with h1 h2 h3
  · exact Int.floor_le_ceil x
  · exact Int.add_one_le_iff.mpr (Int.lt_ceil.mpr (by linarith))
  · exact Int.floor_le_ceil x
  · exact Int.add_one_le_iff.mpr (Int.lt_ceil.mpr (by linarith))

theorem round2_mem (x : ℚ) (h0 : 0 ≤ x) (h1 : x ≤ 100) :
    0 ≤ round2 x ∧ round2 x ≤ 100 := by
  have hf : (0 : ℤ) ≤ ⌊x * 100⌋ := Int.floor_nonneg.mpr (by linarith)
  have h2 : pyRound (x * 100) ≤ ⌈x * 100⌉ := pyRound_le_ceil _
  have h3 : ⌈x * 100⌉ ≤ (10000 : ℤ) := by
    apply Int.ceil_le.mpr
    push_cast
    linarith
  have h4 : (0 : ℤ) ≤ pyRound (x * 100) := le_trans hf (floor_le_pyRound _)
  unfold round2
  constructor
  · apply div_nonneg _ (by norm_num : (0:ℚ) ≤ 100)
    exact_mod_cast h4
  · rw [div_le_iff₀ (by norm_num : (0:ℚ) < 100)]
    have h5 : (pyRound (x * 100) : ℚ) ≤ 10000 := by exact_mod_cast le_trans h2 h3
    linarith

theorem semantic_relevance_mem (svc : EmbeddingService) (p : Product)
    (queries : List String) :
    0 ≤ calculate_semantic_relevance svc p queries ∧
      calculate_semantic_relevance svc p queries ≤ 100 := by
  unfold calculate_semantic_relevance
  dsimp only
  by_cases hc : (chunkWords (pyWords (p.title ++ ". " ++ p.description))).isEmpty = true
  · rw [if_pos hc]
    norm_num
  · rw [if_neg hc]
    exact ⟨clamp_nonneg _, clamp_le_100 _⟩

theorem keyword_coverage_mem (p : Product) :
    0 ≤ calculate_keyword_coverage p ∧ calculate_keyword_coverage p ≤ 100 :=
  ⟨clamp_nonneg _, clamp_le_100 _⟩

theorem completeness_mem (p : Product) :
    0 ≤ calculate_completeness p ∧ calculate_completeness p ≤ 100 :=
  ⟨clamp_nonneg _, clamp_le_100 _⟩

theorem readability_mem (flesch : String → Option ℚ) (p : Product) :
    0 ≤ calculate_readability flesch p ∧ calculate_readability flesch p ≤ 100 :=
  ⟨clamp_nonneg _, clamp_le_100 _⟩

theorem final_score_mem (b : ScoreBreakdown)
    (h1 : 0 ≤ b.semantic_relevance) (h2 : b.semantic_relevance ≤ 100)
    (h3 : 0 ≤ b.keyword_coverage) (h4 : b.keyword_coverage ≤ 100)
    (h5 : 0 ≤ b.completeness) (h6 : b.completeness ≤ 100)
    (h7 : 0 ≤ b.readability) (h8 : b.readability ≤ 100) :
    0 ≤ calculate_final_score b ∧ calculate_final_score b ≤ 100 := by
  unfold calculate_final_score WEIGHT_SEMANTIC WEIGHT_KEYWORD WEIGHT_COMPLETENESS
    WEIGHT_READABILITY
  exact round2_mem _ (by linarith) (by linarith)

/-- C1: for every valid Product, each of the four sub-scores (semantic
relevance, keyword coverage, completeness, readability) and the composite
returned by score_product lie in the closed interval from 0 to 100. -/
theorem C1_scores_bounded (svc : EmbeddingService) (flesch : String → Option ℚ)
    (p : Product) (queries : List String) (hv : validProduct p) :
    (0 ≤ calculate_semantic_relevance svc p queries ∧
      calculate_semantic_relevance svc p queries ≤ 100) ∧
    (0 ≤ calculate_keyword_coverage p ∧ calculate_keyword_coverage p ≤ 100) ∧
    (0 ≤ calculate_completeness p ∧ calculate_completeness p ≤ 100) ∧
    (0 ≤ calculate_readability flesch p ∧ calculate_readability flesch p ≤ 100) ∧
    (0 ≤ (score_product svc flesch p).1 ∧ (score_product svc flesch p).1 ≤ 100) := by
  refine ⟨semantic_relevance_mem svc p queries, keyword_coverage_mem p,
    completeness_mem p, readability_mem flesch p, ?_⟩
  have hb : (score_product svc flesch p).1 = calculate_final_score
      (ScoreBreakdown.mk (calculate_semantic_relevance svc p (generate_ai_queries p))
        (calculate_keyword_coverage p) (calculate_completeness p)
        (calculate_readability flesch p)) := rfl
  rw [hb]
  exact final_score_mem _
    (semantic_relevance_mem svc p _).1 (semantic_relevance_mem svc p _).2
    (keyword_coverage_mem p).1 (keyword_coverage_mem p).2
    (completeness_mem p).1 (completeness_mem p).2
    (readability_mem flesch p).1 (readability_mem flesch p).2

/-- C1 witness: the bounds instantiated at a concrete valid product. -/
theorem C1_scores_bounded_witness :
    validProduct acmeProduct ∧
    ((0 ≤ calculate_semantic_relevance wSvc acmeProduct [] ∧
      calculate_semantic_relevance wSvc acmeProduct [] ≤ 100) ∧
    (0 ≤ calculate_keyword_coverage acmeProduct ∧
      calculate_keyword_coverage acmeProduct ≤ 100) ∧
    (0 ≤ calculate_completeness acmeProduct ∧
      calculate_completeness acmeProduct ≤ 100) ∧
    (0 ≤ calculate_readability (fun _ => none) acmeProduct ∧
      calculate_readability (fun _ => none) acmeProduct ≤ 100) ∧
    (0 ≤ (score_product wSvc (fun _ => none) acmeProduct).1 ∧
      (score_product wSvc (fun _ => none) acmeProduct).1 ≤ 100)) :=
  ⟨by decide, C1_scores_bounded wSvc (fun _ => none) acmeProduct [] (by decide)⟩

/-- C2: for every breakdown with all four fields in the closed interval
from 0 to 100, the composite equals the weighted sum with weights 0.4,
0.2, 0.2, 0.2 rounded to 2 decimals, and the weights sum to 1. -/
theorem C2_composite_formula (b : ScoreBreakdown)
    (h1 : 0 ≤ b.semantic_relevance) (h2 : b.semantic_relevance ≤ 100)
    (h3 : 0 ≤ b.keyword_coverage) (h4 : b.keyword_coverage ≤ 100)
    (h5 : 0 ≤ b.completeness) (h6 : b.completeness ≤ 100)
    (h7 : 0 ≤ b.readability) (h8 : b.readability ≤ 100) :
    calculate_final_score b =
      round2 ((4 / 10) * b.semantic_relevance + (2 / 10) * b.keyword_coverage +
        (2 / 10) * b.completeness + (2 / 10) * b.readability) ∧
    WEIGHT_SEMANTIC + WEIGHT_KEYWORD + WEIGHT_COMPLETENESS + WEIGHT_READABILITY = 1 := by
  constructor
  · unfold calculate_final_score WEIGHT_SEMANTIC WEIGHT_KEYWORD WEIGHT_COMPLETENESS
      WEIGHT_READABILITY
    congr 1
    ring
  · norm_num [WEIGHT_SEMANTIC, WEIGHT_KEYWORD, WEIGHT_COMPLETENESS, WEIGHT_READABILITY]

/-- C2 witness: the formula instantiated at a concrete breakdown. -/
theorem C2_composite_formula_witness :
    ((0:ℚ) ≤ 50 ∧ (50:ℚ) ≤ 100) ∧
    (calculate_final_score midBreakdown =
      round2 ((4 / 10) * midBreakdown.semantic_relevance +
        (2 / 10) * midBreakdown.keyword_coverage +
        (2 / 10) * midBreakdown.completeness +
        (2 / 10) * midBreakdown.readability) ∧
    WEIGHT_SEMANTIC + WEIGHT_KEYWORD + WEIGHT_COMPLETENESS + WEIGHT_READABILITY = 1) :=
  ⟨⟨by norm_num, by norm_num⟩,
    C2_composite_formula midBreakdown (by norm_num [midBreakdown]) (by norm_num [midBreakdown])
      (by norm_num [midBreakdown]) (by norm_num [midBreakdown]) (by norm_num [midBreakdown])
      (by norm_num [midBreakdown]) (by norm_num [midBreakdown]) (by norm_num [midBreakdown])⟩


/-! Stable descending insertion sort: permutation, sortedness, stability. -/

theorem insertDesc_perm (x : Product × ℚ) (l : List (Product × ℚ)) :
    (insertDesc x l).Perm (x :: l) := by
  induction l with
  | nil => exact List.Perm.refl _
  | cons y ys ih =>
    simp only [insertDesc]
    by_cases h : y.2 ≤ x.2
    · rw [if_pos h]
    · rw [if_neg h]
      exact (ih.cons y).trans (List.Perm.swap x y ys)

theorem sortDesc_perm (l : List (Product × ℚ)) : (sortDesc l).Perm l := by
  induction l with
  | nil => exact List.Perm.refl _
  | cons x xs ih =>
    exact (insertDesc_perm x (sortDesc xs)).trans (ih.cons x)

theorem insertDesc_pairwise (x : Product × ℚ) (l : List (Product × ℚ))
    (h : l.Pairwise (fun a b => b.2 ≤ a.2)) :
    (insertDesc x l).Pairwise (fun a b => b.2 ≤ a.2) := by
  induction l with
  | nil => simp [insertDesc]
  | cons y ys ih =>
    rcases List.pairwise_cons.mp h with ⟨hy, hys⟩
    simp only [insertDesc]
    by_cases hxy : y.2 ≤ x.2
    · rw [if_pos hxy]
      refine List.pairwise_cons.mpr ⟨?_, h⟩
      intro b hb
      rcases List.mem_cons.mp hb with rfl | hb
      · exact hxy
      · exact le_trans (hy b hb) hxy
    · rw [if_neg hxy]
      refine List.pairwise_cons.mpr ⟨?_, ih hys⟩
      intro b hb
      have hb2 : b = x ∨ b ∈ ys := by
        simpa using (insertDesc_perm x ys).mem_iff.mp hb
      rcases hb2 with rfl | hb2
      · exact le_of_lt (lt_of_not_le hxy)
      · exact hy b hb2

theorem sortDesc_pairwise (l : List (Product × ℚ)) :
    (sortDesc l).Pairwise (fun a b => b.2 ≤ a.2) := by
  induction l with
  | nil => simp [sortDesc]
  | cons x xs ih => exact insertDesc_pairwise x (sortDesc xs) ih

theorem filter_insertDesc_eq (x : Product × ℚ) (l : List (Product × ℚ)) (q : ℚ)
    (hx : x.2 = q) :
    (insertDesc x l).filter (fun pr => decide (pr.2 = q)) =
      x :: l.filter (fun pr => decide (pr.2 = q)) := by
  induction l with
  | nil => simp [insertDesc, hx]
  | cons y ys ih =>
    simp only [insertDesc]
    by_cases hxy : y.2 ≤ x.2
    · rw [if_pos hxy]
      simp [List.filter_cons, hx]
    · rw [if_neg hxy]
      have hy2 : ¬ (y.2 = q) := fun hh => hxy (le_of_eq (hx ▸ hh))
      simp [List.filter_cons, hy2, ih]

theorem filter_insertDesc_ne (x : Product × ℚ) (l : List (Product × ℚ)) (q : ℚ)
    (hx : x.2 ≠ q) :
    (insertDesc x l).filter (fun pr => decide (pr.2 = q)) =
      l.filter (fun pr => decide (pr.2 = q)) := by
  induction l with
  | nil => simp [insertDesc, hx]
  | cons y ys ih =>
    simp only [insertDesc]
    by_cases hxy : y.2 ≤ x.2
    · rw [if_pos hxy]
      simp [List.filter_cons, hx]
    · rw [if_neg hxy]
      by_cases hyq : y.2 = q
      · simp [List.filter_cons, hyq, ih]
      · simp [List.filter_cons, hyq, ih]

theorem filter_sortDesc (l : List (Product × ℚ)) (q : ℚ) :
    (sortDesc l).filter (fun pr => decide (pr.2 = q)) =
      l.filter (fun pr => decide (pr.2 = q)) := by
  induction l with
  | nil => simp [sortDesc]
  | cons x xs ih =>
    show (insertDesc x (sortDesc xs)).filter _ = _
    by_cases hx : x.2 = q
    · rw [filter_insertDesc_eq x (sortDesc xs) q hx, ih]
      simp [List.filter_cons, hx]
    · rw [filter_insertDesc_ne x (sortDesc xs) q hx, ih]
      simp [List.filter_cons, hx]

/-! Rank-assignment lemmas. -/

theorem withRanks_length (sent : Product → Option SentimentResult) :
    ∀ (n : Nat) (l : List (Product × ℚ)), (withRanks sent n l).length = l.length := by
  intro n l
  induction l generalizing n with
  | nil => rfl
  | cons pr rest ih => simp [withRanks, ih]

theorem withRanks_map_product (sent : Product → Option SentimentResult) :
    ∀ (n : Nat) (l : List (Product × ℚ)),
      (withRanks sent n l).map (fun r => r.product) = l.map (fun pr => pr.1) := by
  intro n l
  induction l generalizing n with
  | nil => rfl
  | cons pr rest ih => simp [withRanks, mkRanked, ih]

theorem withRanks_map_rank (sent : Product → Option SentimentResult) :
    ∀ (n : Nat) (l : List (Product × ℚ)),
      (withRanks sent n l).map (fun r => r.rank) = List.range' n l.length := by
  intro n l
  induction l generalizing n with
  | nil => rfl
  | cons pr rest ih =>
    simp [withRanks, mkRanked, ih, List.range'_succ]

theorem mem_withRanks (sent : Product → Option SentimentResult) :
    ∀ (n : Nat) (l : List (Product × ℚ)) (r : RankedProduct),
      r ∈ withRanks sent n l → (r.product, r.score) ∈ l := by
  intro n l
  induction l generalizing n with
  | nil => intro r hr; cases hr
  | cons pr rest ih =>
    intro r hr
    rcases List.mem_cons.mp hr with rfl | hr
    · simp [mkRanked]
    · exact List.mem_cons_of_mem _ (ih (n + 1) r hr)

theorem withRanks_pairwise (sent : Product → Option SentimentResult) :
    ∀ (n : Nat) (l : List (Product × ℚ)), l.Pairwise (fun a b => b.2 ≤ a.2) →
      (withRanks sent n l).Pairwise (fun a b => b.score ≤ a.score) := by
  intro n l
  induction l generalizing n with
  | nil => intro _; exact List.Pairwise.nil
  | cons pr rest ih =>
    intro h
    rcases List.pairwise_cons.mp h with ⟨hpr, hrest⟩
    refine List.pairwise_cons.mpr ⟨?_, ih (n + 1) hrest⟩
    intro r hr
    exact hpr (r.product, r.score) (mem_withRanks sent (n + 1) rest r hr)

theorem withRanks_filter (sent : Product → Option SentimentResult) (q : ℚ) :
    ∀ (n : Nat) (l : List (Product × ℚ)),
      ((withRanks sent n l).filter (fun r => decide (r.score = q))).map (fun r => r.product)
        = (l.filter (fun pr => decide (pr.2 = q))).map (fun pr => pr.1) := by
  intro n l
  induction l generalizing n with
  | nil => rfl
  | cons pr rest ih =>
    have hstep : withRanks sent n (pr :: rest)
        = mkRanked sent pr n :: withRanks sent (n + 1) rest := rfl
    rw [hstep]
    by_cases hq : pr.2 = q
    · simp [List.filter_cons, mkRanked, hq, ih]
    · simp [List.filter_cons, mkRanked, hq, ih]

/-! Behaviour of the full ranking operation; these lemmas are shared by the
ranking claims. -/

theorem rank_products_length (svc : EmbeddingService) (flesch : String → Option ℚ)
    (sent : Product → Option SentimentResult) (l : List Product) :
    (rank_products svc flesch sent l).length = l.length := by
  unfold rank_products
  rw [withRanks_length, (sortDesc_perm _).length_eq, List.length_map]

theorem rank_products_perm (svc : EmbeddingService) (flesch : String → Option ℚ)
    (sent : Product → Option SentimentResult) (l : List Product) :
    ((rank_products svc flesch sent l).map (fun r => r.product)).Perm l := by
  unfold rank_products
  rw [withRanks_map_product]
  have h1 := (sortDesc_perm (l.map (fun p => (p, finalScoreOf svc flesch p)))).map
    (fun pr : Product × ℚ => pr.1)
  have h2 : (l.map (fun p => (p, finalScoreOf svc flesch p))).map
      (fun pr : Product × ℚ => pr.1) = l := by
    rw [List.map_map]
    exact List.map_id _
  rw [h2] at h1
  exact h1

theorem rank_products_sorted (svc : EmbeddingService) (flesch : String → Option ℚ)
    (sent : Product → Option SentimentResult) (l : List Product) :
    (rank_products svc flesch sent l).Pairwise (fun a b => b.score ≤ a.score) := by
  unfold rank_products
  exact withRanks_pairwise sent 1 _ (sortDesc_pairwise _)

theorem rank_products_ranks (svc : EmbeddingService) (flesch : String → Option ℚ)
    (sent : Product → Option SentimentResult) (l : List Product) :
    (rank_products svc flesch sent l).map (fun r => r.rank) = List.range' 1 l.length := by
  unfold rank_products
  rw [withRanks_map_rank, (sortDesc_perm _).length_eq, List.length_map]

theorem rank_products_stable (svc : EmbeddingService) (flesch : String → Option ℚ)
    (sent : Product → Option SentimentResult) (l : List Product) (q : ℚ) :
    ((rank_products svc flesch sent l).filter (fun r => decide (r.score = q))).map
        (fun r => r.product)
      = l.filter (fun p => decide (finalScoreOf svc flesch p = q)) := by
  unfold rank_products
  rw [withRanks_filter, filter_sortDesc]
  rw [List.filter_map]
  rw [List.map_map]
  have : ((fun pr : Product × ℚ => pr.1) ∘ fun p => (p, finalScoreOf svc flesch p)) = id := rfl
  rw [this, List.map_id]
  rfl

/-- C3: rank_products returns one RankedProduct per input product, sorted
by non-increasing composite score, stable on ties (the products at any
given score appear in input order), and assigns ranks 1..N with no gaps. -/
theorem C3_rank_products_spec (svc : EmbeddingService) (flesch : String → Option ℚ)
    (sent : Product → Option SentimentResult) (l : List Product) :
    (rank_products svc flesch sent l).length = l.length ∧
    ((rank_products svc flesch sent l).map (fun r => r.product)).Perm l ∧
    (rank_products svc flesch sent l).Pairwise (fun a b => b.score ≤ a.score) ∧
    (∀ q : ℚ, ((rank_products svc flesch sent l).filter
        (fun r => decide (r.score = q))).map (fun r => r.product)
      = l.filter (fun p => decide (finalScoreOf svc flesch p = q))) ∧
    (rank_products svc flesch sent l).map (fun r => r.rank) = List.range' 1 l.length :=
  ⟨rank_products_length svc flesch sent l,
   rank_products_perm svc flesch sent l,
   rank_products_sorted svc flesch sent l,
   fun q => rank_products_stable svc flesch sent l q,
   rank_products_ranks svc flesch sent l⟩


/-! First-match characterisation of List.find?, used for the subject lookup
in rank_against_competitors. -/

theorem find_first_spec {α : Type} (p : α → Bool) (l : List α)
    (hx : ∃ x ∈ l, p x = true) :
    ∃ i, ∃ h : i < l.length, l.find? p = some (l.get ⟨i, h⟩) ∧
      p (l.get ⟨i, h⟩) = true ∧
      ∀ j, ∀ hj : j < l.length, j < i → p (l.get ⟨j, hj⟩) = false := by
  induction l with
  | nil => simp at hx
  | cons a t ih =>
    by_cases ha : p a = true
    · refine ⟨0, Nat.succ_pos _, ?_, ?_, ?_⟩
      · simp [List.find?, ha]
      · simpa using ha
      · intro j hj hji
        exact absurd hji (Nat.not_lt_zero j)
    · have ha2 : p a = false := by simpa using ha
      have hx2 : ∃ x ∈ t, p x = true := by
        rcases hx with ⟨x, hxm, hxp⟩
        rcases List.mem_cons.mp hxm with rfl | hxm2
        · exact absurd hxp ha
        · exact ⟨x, hxm2, hxp⟩
      rcases ih hx2 with ⟨i, h, h1, h2, h3⟩
      refine ⟨i + 1, Nat.succ_lt_succ h, ?_, ?_, ?_⟩
      · simpa [List.find?, ha2] using h1
      · simpa using h2
      · intro j hj hji
        cases j with
        | zero => simpa using ha2
        | succ j2 =>
          simpa using h3 j2 (Nat.lt_of_succ_lt_succ hj) (Nat.lt_of_succ_lt_succ hji)

/-- C9: rank_against_competitors ranks the cohort consisting of the subject
followed by the competitors, and returns as the subject entry the first
element of the ranked output whose underlying product is structurally equal
to the subject (so duplicate-valued cohorts resolve to the first match). -/
theorem C9_rank_against_competitors_first_match (svc : EmbeddingService)
    (flesch : String → Option ℚ) (sent : Product → Option SentimentResult)
    (user_product : Product) (competitors : List Product)
    (hc : competitors ≠ []) :
    (rank_against_competitors svc flesch sent user_product competitors).2
      = rank_products svc flesch sent ([user_product] ++ competitors) ∧
    ∃ i, ∃ h : i < (rank_products svc flesch sent ([user_product] ++ competitors)).length,
      (rank_against_competitors svc flesch sent user_product competitors).1
        = some ((rank_products svc flesch sent ([user_product] ++ competitors)).get ⟨i, h⟩) ∧
      ((rank_products svc flesch sent ([user_product] ++ competitors)).get ⟨i, h⟩).product
        = user_product ∧
      ∀ j, ∀ hj : j < (rank_products svc flesch sent ([user_product] ++ competitors)).length,
        j < i →
        ((rank_products svc flesch sent ([user_product] ++ competitors)).get
          ⟨j, hj⟩).product ≠ user_product := by
  refine ⟨rfl, ?_⟩
  have hmem : ∃ r ∈ rank_products svc flesch sent ([user_product] ++ competitors),
      (fun r : RankedProduct => decide (r.product = user_product)) r = true := by
    have hperm := rank_products_perm svc flesch sent ([user_product] ++ competitors)
    have hin : user_product ∈ (rank_products svc flesch sent
        ([user_product] ++ competitors)).map (fun r => r.product) :=
      hperm.mem_iff.mpr (by simp)
    rcases List.mem_map.mp hin with ⟨r, hrm, hrp⟩
    exact ⟨r, hrm, by simpa using hrp⟩
  rcases find_first_spec _ _ hmem with ⟨i, h, h1, h2, h3⟩
  refine ⟨i, h, h1, by simpa using h2, ?_⟩
  intro j hj hji
  simpa using h3 j hj hji

/-- C9 witness: a concrete subject and non-empty competitor list. -/
theorem C9_rank_against_competitors_witness :
    ([colonProduct] : List Product) ≠ [] ∧
    ((rank_against_competitors wSvc (fun _ => none) (fun _ => none) acmeProduct
        [colonProduct]).2
      = rank_products wSvc (fun _ => none) (fun _ => none) ([acmeProduct] ++ [colonProduct]) ∧
    ∃ i, ∃ h : i < (rank_products wSvc (fun _ => none) (fun _ => none)
        ([acmeProduct] ++ [colonProduct])).length,
      (rank_against_competitors wSvc (fun _ => none) (fun _ => none) acmeProduct
          [colonProduct]).1
        = some ((rank_products wSvc (fun _ => none) (fun _ => none)
            ([acmeProduct] ++ [colonProduct])).get ⟨i, h⟩) ∧
      ((rank_products wSvc (fun _ => none) (fun _ => none)
          ([acmeProduct] ++ [colonProduct])).get ⟨i, h⟩).product = acmeProduct ∧
      ∀ j, ∀ hj : j < (rank_products wSvc (fun _ => none) (fun _ => none)
          ([acmeProduct] ++ [colonProduct])).length,
        j < i →
        ((rank_products wSvc (fun _ => none) (fun _ => none)
            ([acmeProduct] ++ [colonProduct])).get ⟨j, hj⟩).product ≠ acmeProduct) :=
  ⟨by decide, C9_rank_against_competitors_first_match wSvc (fun _ => none) (fun _ => none)
    acmeProduct [colonProduct] (by decide)⟩

/-- C4 counterexample: on the Acme X1 example product the missing_specs
list records the first segment of the concept key, which for the battery
concept is the word specifications, not battery. -/
theorem C4_missing_specs_counterexample :
    "battery" ∉ (analyze_weaknesses acmeProduct zeroBreakdown).missing_specs := by
  decide

/-- C4 amended: for the Acme X1 example product (any breakdown),
clarity_issues contains the too-short message and missing_specs is exactly
[specifications, dimensions, weight, material, warranty]. -/
theorem C4_weakness_example (b : ScoreBreakdown) :
    "Description too short" ∈ (analyze_weaknesses acmeProduct b).clarity_issues ∧
    (analyze_weaknesses acmeProduct b).missing_specs =
      ["specifications", "dimensions", "weight", "material", "warranty"] := by
  constructor
  · show "Description too short" ∈
      (if acmeProduct.description.length < MIN_DESCRIPTION_LENGTH
       then ["Description too short"] else [])
    decide
  · show (weaknessConcepts.filter
        (fun c => !(c.2.any (fun trigger =>
          occursIn trigger (lowerStr acmeProduct.description))))).map
        (fun c => headBeforeSlash c.1) = _
    decide

/-- C5: on the empty document list the sklearn validation inside
cosine_similarity raises, so compute_similarity_batch fails there instead
of returning the empty sequence the claim requires; on every non-empty
document list the call succeeds and returns one score per document, in
document order, with the same length as the document list. -/
theorem C5_batch_similarity_empty_fails :
    compute_similarity_batchChecked wSvc "best headphones" [] = none ∧
    ∀ (svc : EmbeddingService) (query : String) (documents : List String),
      documents ≠ [] →
      compute_similarity_batchChecked svc query documents
        = some (compute_similarity_batch svc query documents) ∧
      (compute_similarity_batch svc query documents).length = documents.length ∧
      ∀ i : Nat, (compute_similarity_batch svc query documents).get? i
        = (documents.get? i).map (fun d => svc.cos (svc.encode query) (svc.encode d)) := by
  refine ⟨rfl, ?_⟩
  intro svc query documents hne
  refine ⟨?_, ?_, ?_⟩
  · unfold compute_similarity_batchChecked
    rw [if_neg (by simpa [List.isEmpty_iff] using hne)]
  · unfold compute_similarity_batch
    simp
  · intro i
    unfold compute_similarity_batch
    simp [List.get?_map, Option.map_map]
    rfl

/-- C5 witness: the non-empty branch at a concrete document list. -/
theorem C5_batch_similarity_empty_fails_witness :
    (["Premium wireless headphones"] : List String) ≠ [] ∧
    (compute_similarity_batchChecked wSvc "best headphones" ["Premium wireless headphones"]
        = some (compute_similarity_batch wSvc "best headphones"
            ["Premium wireless headphones"]) ∧
     (compute_similarity_batch wSvc "best headphones"
        ["Premium wireless headphones"]).length
        = (["Premium wireless headphones"] : List String).length ∧
     ∀ i : Nat, (compute_similarity_batch wSvc "best headphones"
          ["Premium wireless headphones"]).get? i
        = ((["Premium wireless headphones"] : List String).get? i).map
            (fun d => wSvc.cos (wSvc.encode "best headphones") (wSvc.encode d))) :=
  ⟨by decide, C5_batch_similarity_empty_fails.2 wSvc "best headphones"
    ["Premium wireless headphones"] (by decide)⟩

/-- C6 counterexample: a one-character colon marker changes the description
length, so the completeness score with the marker is not exactly 15 above
the score of the marker-stripped description (and neither score is at the
100 clamp). -/
theorem C6_completeness_bonus_counterexample :
    hasMarker colonProduct.description = true ∧
    strippedColonProduct.description = stripMarkers colonProduct.description ∧
    calculate_completeness colonProduct < 100 ∧
    calculate_completeness strippedColonProduct < 100 ∧
    calculate_completeness colonProduct ≠ calculate_completeness strippedColonProduct + 15 :=
  of_decide_eq_true (by with_unfolding_all rfl)

theorem completenessBase_mem (p : Product) :
    0 ≤ completenessBase p ∧ completenessBase p ≤ 100 := by
  unfold completenessBase
  dsimp only
  have h6 : completenessConcepts.length = 6 := rfl
  have h28 : COMPLETENESS_KEYWORDS.length = 28 := rfl
  have hc : ((completenessConcepts.filter (fun c => c.2.any (fun trigger =>
      occursIn trigger (lowerStr (p.title ++ " " ++ p.description))))).length : ℚ) ≤ 6 := by
    have := List.length_filter_le (fun c : String × List String => c.2.any (fun trigger =>
      occursIn trigger (lowerStr (p.title ++ " " ++ p.description)))) completenessConcepts
    rw [h6] at this
    exact_mod_cast this
  have hk : ((COMPLETENESS_KEYWORDS.filter (fun kw =>
      occursIn kw (lowerStr (p.title ++ " " ++ p.description)))).length : ℚ) ≤ 28 := by
    have := List.length_filter_le (fun kw =>
      occursIn kw (lowerStr (p.title ++ " " ++ p.description))) COMPLETENESS_KEYWORDS
    rw [h28] at this
    exact_mod_cast this
  have hc0 : (0:ℚ) ≤ ((completenessConcepts.filter (fun c => c.2.any (fun trigger =>
      occursIn trigger (lowerStr (p.title ++ " " ++ p.description))))).length : ℚ) :=
    Nat.cast_nonneg _
  have hk0 : (0:ℚ) ≤ ((COMPLETENESS_KEYWORDS.filter (fun kw =>
      occursIn kw (lowerStr (p.title ++ " " ++ p.description)))).length : ℚ) :=
    Nat.cast_nonneg _
  have hl0 : (0:ℚ) ≤ qmin 100 ((p.description.length : ℚ) / 2000 * 100) := by
    rw [qmin_eq_min]
    exact le_min (by norm_num) (by positivity)
  have hl1 : qmin 100 ((p.description.length : ℚ) / 2000 * 100) ≤ 100 := by
    rw [qmin_eq_min]
    exact min_le_left _ _
  rw [h6, h28]
  constructor
  · positivity
  · have hcs : ((completenessConcepts.filter (fun c => c.2.any (fun trigger =>
        occursIn trigger (lowerStr (p.title ++ " " ++ p.description))))).length : ℚ)
        / 6 * 100 ≤ 100 := by
      rw [div_mul_eq_mul_div, div_le_iff₀ (by norm_num : (0:ℚ) < 6)]
      linarith
    have hks : ((COMPLETENESS_KEYWORDS.filter (fun kw =>
        occursIn kw (lowerStr (p.title ++ " " ++ p.description)))).length : ℚ)
        / 28 * 100 ≤ 100 := by
      rw [div_mul_eq_mul_div, div_le_iff₀ (by norm_num : (0:ℚ) < 28)]
      linarith
    have hcs0 : (0:ℚ) ≤ ((completenessConcepts.filter (fun c => c.2.any (fun trigger =>
        occursIn trigger (lowerStr (p.title ++ " " ++ p.description))))).length : ℚ)
        / 6 * 100 := by positivity
    have hks0 : (0:ℚ) ≤ ((COMPLETENESS_KEYWORDS.filter (fun kw =>
        occursIn kw (lowerStr (p.title ++ " " ++ p.description)))).length : ℚ)
        / 28 * 100 := by positivity
    linarith

/-- C6 amended: with a marker present, completeness equals the clamp of the
pre-bonus base plus 15; it is at least the clamped pre-bonus score, and is
exactly 15 above it whenever the bonus does not hit the 100 clamp.  (The
stripped-description comparison of the original claim fails because
stripping changes the description length term.) -/
theorem C6_completeness_bonus_amended (p : Product)
    (h : hasMarker p.description = true) :
    calculate_completeness p = qmin 100 (completenessBase p + 15) ∧
    qmin 100 (qmax 0 (completenessBase p)) ≤ calculate_completeness p ∧
    (completenessBase p + 15 ≤ 100 →
      calculate_completeness p = qmin 100 (qmax 0 (completenessBase p)) + 15) := by
  obtain ⟨hb0, hb100⟩ := completenessBase_mem p
  have hqmax : qmax 0 (completenessBase p + 15) = completenessBase p + 15 := by
    rw [qmax_eq_max]
    exact max_eq_right (by linarith)
  have hqmax0 : qmax 0 (completenessBase p) = completenessBase p := by
    rw [qmax_eq_max]
    exact max_eq_right hb0
  have hcc : calculate_completeness p = qmin 100 (completenessBase p + 15) := by
    unfold calculate_completeness
    dsimp only
    rw [if_pos h, hqmax]
  refine ⟨hcc, ?_, ?_⟩
  · rw [hcc, hqmax0, qmin_eq_min, qmin_eq_min]
    exact min_le_min le_rfl (by linarith)
  · intro h15
    rw [hcc, hqmax0, qmin_eq_min, qmin_eq_min, min_eq_right h15, min_eq_right hb100]

/-- C6 witness: the amended bonus law at a concrete marked product. -/
theorem C6_completeness_bonus_witness :
    hasMarker colonProduct.description = true ∧
    (calculate_completeness colonProduct = qmin 100 (completenessBase colonProduct + 15) ∧
     qmin 100 (qmax 0 (completenessBase colonProduct)) ≤ calculate_completeness colonProduct ∧
     (completenessBase colonProduct + 15 ≤ 100 →
       calculate_completeness colonProduct
         = qmin 100 (qmax 0 (completenessBase colonProduct)) + 15)) :=
  ⟨by decide, C6_completeness_bonus_amended colonProduct (by decide)⟩


/-! Substring containment is preserved by appending to the haystack; this
drives the keyword-coverage monotonicity claim. -/

theorem hasPrefixL_append (n : List Char) :
    ∀ (l e : List Char), hasPrefixL n l = true → hasPrefixL n (l ++ e) = true := by
  induction n with
  | nil =>
    intro l e _
    rfl
  | cons a as ih =>
    intro l e h
    cases l with
    | nil => simp [hasPrefixL] at h
    | cons b bs =>
      simp only [hasPrefixL, List.cons_append, Bool.and_eq_true] at h ⊢
      exact ⟨h.1, ih bs e h.2⟩

theorem hasSubL_nil_needle : ∀ l : List Char, hasSubL [] l = true := by
  intro l
  cases l with
  | nil => rfl
  | cons b bs => simp [hasSubL, hasPrefixL]

theorem hasSubL_append (n : List Char) :
    ∀ (h e : List Char), hasSubL n h = true → hasSubL n (h ++ e) = true := by
  intro h
  induction h with
  | nil =>
    intro e hh
    have hn : n = [] := by
      simpa [hasSubL, List.isEmpty_iff] using hh
    subst hn
    simpa using hasSubL_nil_needle e
  | cons b bs ih =>
    intro e hh
    simp only [hasSubL, List.cons_append, Bool.or_eq_true] at hh ⊢
    rcases hh with h1 | h2
    · exact Or.inl (hasPrefixL_append n (b :: bs) e h1)
    · exact Or.inr (ih e h2)

theorem str_data_append (s t : String) : (s ++ t).data = s.data ++ t.data := by
  cases s
  cases t
  rfl

theorem str_append_assoc (a b c : String) : (a ++ b) ++ c = a ++ (b ++ c) := by
  cases a with
  | mk as =>
    cases b with
    | mk bs =>
      cases c with
      | mk cs =>
        show String.mk ((as ++ bs) ++ cs) = String.mk (as ++ (bs ++ cs))
        rw [List.append_assoc]

theorem occursIn_append_left (n s t : String) (h : occursIn n s = true) :
    occursIn n (s ++ t) = true := by
  unfold occursIn at h ⊢
  rw [str_data_append]
  exact hasSubL_append n.data s.data t.data h

theorem lowerStr_append (s t : String) : lowerStr (s ++ t) = lowerStr s ++ lowerStr t := by
  cases s with
  | mk a =>
    cases t with
    | mk b =>
      show String.mk (List.map Char.toLower (a ++ b)) = String.mk _ ++ String.mk _
      rw [List.map_append]
      rfl

theorem length_filter_mono {α : Type} (q r : α → Bool) (l : List α)
    (h : ∀ x ∈ l, q x = true → r x = true) :
    (l.filter q).length ≤ (l.filter r).length := by
  induction l with
  | nil => exact le_refl _
  | cons a t ih =>
    have ht : ∀ x ∈ t, q x = true → r x = true :=
      fun x hx => h x (List.mem_cons_of_mem a hx)
    by_cases hq : q a = true
    · have hr : r a = true := h a (List.mem_cons_self a t) hq
      simp only [List.filter_cons, hq, hr, if_true, List.length_cons]
      exact Nat.succ_le_succ (ih ht)
    · by_cases hr : r a = true
      · simp only [List.filter_cons, hq, hr, if_true, if_false, Bool.false_eq_true,
          List.length_cons]
        exact le_trans (ih ht) (Nat.le_succ _)
      · simp only [List.filter_cons, hq, hr, if_false, Bool.false_eq_true]
        exact ih ht

/-- C7: appending an occurrence of an important keyword that is absent from
the description never decreases the keyword coverage score. -/
theorem C7_keyword_coverage_monotone (p : Product) (kw : String)
    (hkw : kw ∈ importantKeywords p)
    (habs : occursIn kw (lowerStr p.description) = false) :
    calculate_keyword_coverage p ≤
      calculate_keyword_coverage { p with description := p.description ++ " " ++ kw } := by
  unfold calculate_keyword_coverage
  dsimp only
  have hik : importantKeywords { p with description := p.description ++ " " ++ kw }
      = importantKeywords p := rfl
  rw [hik]
  have hlow : lowerStr (p.description ++ " " ++ kw)
      = lowerStr p.description ++ (lowerStr " " ++ lowerStr kw) := by
    rw [lowerStr_append, lowerStr_append, str_append_assoc]
  have hcount : ((importantKeywords p).filter
        (fun k => occursIn k (lowerStr p.description))).length ≤
      ((importantKeywords p).filter
        (fun k => occursIn k (lowerStr (p.description ++ " " ++ kw)))).length := by
    apply length_filter_mono
    intro x _ hocc
    rw [hlow]
    exact occursIn_append_left x (lowerStr p.description) (lowerStr " " ++ lowerStr kw) hocc
  have hlen : ((importantKeywords p).length : ℚ) = 13 := rfl
  rw [hlen]
  have harith : (((importantKeywords p).filter
        (fun k => occursIn k (lowerStr p.description))).length : ℚ) / 13 * 100 ≤
      (((importantKeywords p).filter
        (fun k => occursIn k (lowerStr (p.description ++ " " ++ kw)))).length : ℚ) / 13 * 100 := by
    have hq : (((importantKeywords p).filter
        (fun k => occursIn k (lowerStr p.description))).length : ℚ) ≤
        (((importantKeywords p).filter
          (fun k => occursIn k (lowerStr (p.description ++ " " ++ kw)))).length : ℚ) := by
      exact_mod_cast hcount
    linarith
  rw [qmin_eq_min, qmin_eq_min, qmax_eq_max, qmax_eq_max]
  exact min_le_min le_rfl (max_le_max le_rfl harith)

/-- C7 witness: adding the absent keyword quality to a concrete product. -/
theorem C7_keyword_coverage_monotone_witness :
    "quality" ∈ importantKeywords gizmoProduct ∧
    occursIn "quality" (lowerStr gizmoProduct.description) = false ∧
    calculate_keyword_coverage gizmoProduct ≤
      calculate_keyword_coverage
        { gizmoProduct with description := gizmoProduct.description ++ " " ++ "quality" } :=
  ⟨by decide, by decide,
    C7_keyword_coverage_monotone gizmoProduct "quality" (by decide) (by decide)⟩

/-- C8: the sub-scores are total on valid products (the one genuinely
fallible sub-computation, the chunk-mean division inside semantic
relevance, always succeeds on the generated query list), and whenever the
raw Flesch metric fails, calculate_readability returns the neutral 50. -/
theorem C8_totality_and_readability_fallback (svc : EmbeddingService)
    (flesch : String → Option ℚ) (p : Product)
    (hfail : flesch p.description = none) :
    (calculate_semantic_relevanceChecked svc p (generate_ai_queries p)).isSome = true ∧
    calculate_readability flesch p = 50 := by
  constructor
  · unfold calculate_semantic_relevanceChecked
    dsimp only
    by_cases hch : (chunkWords (pyWords (p.title ++ ". " ++ p.description))).isEmpty = true
    · rw [if_pos hch]
      rfl
    · rw [if_neg hch]
      have hq : (generate_ai_queries p).isEmpty = false := rfl
      simp [hq]
  · unfold calculate_readability
    dsimp only
    rw [hfail]
    norm_num [qmin, qmax]

/-- C8 witness: a concrete product with a failing Flesch metric. -/
theorem C8_totality_and_readability_fallback_witness :
    ((fun _ : String => (none : Option ℚ)) acmeProduct.description = none) ∧
    ((calculate_semantic_relevanceChecked wSvc acmeProduct
        (generate_ai_queries acmeProduct)).isSome = true ∧
     calculate_readability (fun _ => none) acmeProduct = 50) :=
  ⟨rfl, C8_totality_and_readability_fallback wSvc (fun _ => none) acmeProduct rfl⟩

/-- C10: extract_features returns a duplicate-free subsequence of the seven
fixed tags in mapping order, with a tag present exactly when one of its
trigger substrings occurs in the lowercased combined title and
description. -/
theorem C10_extract_features_spec (title description : String) :
    (extract_features title description).Nodup ∧
    (extract_features title description).Sublist (featureMapping.map (fun m => m.1)) ∧
    (∀ tag : String, tag ∈ extract_features title description ↔
      ∃ trigs : List String, (tag, trigs) ∈ featureMapping ∧
        ∃ t ∈ trigs, occursIn t (lowerStr (title ++ " " ++ description)) = true) := by
  have hsub : (extract_features title description).Sublist
      (featureMapping.map (fun m => m.1)) := by
    unfold extract_features
    dsimp only
    exact (List.filter_sublist _).map _
  have hnodup0 : (featureMapping.map (fun m => m.1)).Nodup := by decide
  refine ⟨List.Nodup.sublist hsub hnodup0, hsub, ?_⟩
  intro tag
  unfold extract_features
  dsimp only
  constructor
  · intro htag
    rcases List.mem_map.mp htag with ⟨m, hm, rfl⟩
    rcases List.mem_filter.mp hm with ⟨hm1, hm2⟩
    refine ⟨m.2, by simpa using hm1, ?_⟩
    simpa using List.any_eq_true.mp hm2
  · rintro ⟨trigs, hmem, t, ht, hocc⟩
    apply List.mem_map.mpr
    refine ⟨(tag, trigs), List.mem_filter.mpr ⟨hmem, ?_⟩, rfl⟩
    exact List.any_eq_true.mpr ⟨t, ht, hocc⟩

end AIVis
